import Mathlib

/-!
Verification of the minitorch module-0 repository against its specification.

The development shallowly embeds the two source files:

* `src/minitorch/operators.py` — scalar math primitives over the reals.
  Python float operations that can raise are modelled as `Option`-valued:
  `x / y` raises `ZeroDivisionError` exactly when `y == 0`, and `math.log x`
  raises a domain error (`ValueError`) exactly when `x ≤ 0`.  Operations that
  cannot raise are plain functions.
* `src/minitorch/module.py` — the `Module`/`Parameter` tree, embedded as a
  mutual inductive: a module owns an ordered association list of parameters,
  an ordered list of named child modules (both mirroring the insertion-ordered
  Python dicts), and a `training` flag.

Definitions come first, then the theorems about them.
-/

namespace Minitorch

/-- Python float division `a / b`: raises (here `none`) exactly when `b = 0`. -/
noncomputable def pydiv (a b : ℝ) : Option ℝ :=
  if b = 0 then none else some (a / b)

/-- `mul(x, y) = x * y` from operators.py. -/
def mul (x y : ℝ) : ℝ := x * y

/-- `prod(lst)`: hand-written loop, accumulator starting at `1.0`,
multiplied by each element in order (operators.py lines 15–19). -/
def prod (lst : List ℝ) : ℝ := lst.foldl (fun result num => result * num) 1

/-- `id(x) = x` from operators.py. -/
def id (x : ℝ) : ℝ := x

/-- `add(x, y) = x + y` from operators.py. -/
def add (x y : ℝ) : ℝ := x + y

/-- `neg(x) = -x` from operators.py. -/
def neg (x : ℝ) : ℝ := -x

/-- `lt(x, y)`: `x < y` from operators.py. -/
def lt (x y : ℝ) : Prop := x < y

/-- `eq(x, y)`: `x == y` from operators.py. -/
def eq (x y : ℝ) : Prop := x = y

/-- `max(x, y)`: `x if x > y else y` (operators.py line 43). -/
noncomputable def max (x y : ℝ) : ℝ := if x > y then x else y

/-- `is_close(x, y)`: `abs(x - y) < 1e-2` from operators.py. -/
def is_close (x y : ℝ) : Prop := |x - y| < 1 / 100

/-- `sigmoid(x)`: `1.0 / (1.0 + exp(-x))  if x >= 0  else exp(x) / (1.0 + exp(x))`
(operators.py line 51), as a real-valued function. -/
noncomputable def sigmoid (x : ℝ) : ℝ :=
  if x ≥ 0 then 1 / (1 + Real.exp (-x)) else Real.exp x / (1 + Real.exp x)

/-- `sigmoid` with Python's raising division made explicit: the same source
line, with each float division routed through `pydiv`. -/
noncomputable def sigmoidE (x : ℝ) : Option ℝ :=
  if x ≥ 0 then pydiv 1 (1 + Real.exp (-x)) else pydiv (Real.exp x) (1 + Real.exp x)

/-- `relu(x)`: `max(0, x)` using the module's own `max` (operators.py line 55). -/
noncomputable def relu (x : ℝ) : ℝ := max 0 x

/-- `log(x)`: `math.log(x)`, which raises a domain error for `x ≤ 0`. -/
noncomputable def log (x : ℝ) : Option ℝ :=
  if x ≤ 0 then none else some (Real.log x)

/-- `exp(x)`: `math.exp(x)` (total over the reals). -/
noncomputable def exp (x : ℝ) : ℝ := Real.exp x

/-- `log_back(x, d)`: `d / x` (operators.py line 67), a raising division. -/
noncomputable def log_back (x d : ℝ) : Option ℝ := pydiv d x

/-- `inv(x)`: `1.0 / x` (operators.py line 71), a raising division. -/
noncomputable def inv (x : ℝ) : Option ℝ := pydiv 1 x

/-- `inv_back(x, d)`: `-d / (x ** 2)` (operators.py line 75), a raising division. -/
noncomputable def inv_back (x d : ℝ) : Option ℝ := pydiv (-d) (x ^ 2)

/-- `relu_back(x, d)`: `d if x > 0 else 0` (operators.py line 79). -/
noncomputable def relu_back (x d : ℝ) : ℝ := if x > 0 then d else 0

/-- `map(fn, lst)` from operators.py: elementwise application. -/
def map (fn : ℝ → ℝ) (lst : List ℝ) : List ℝ := lst.map fn

/-- `zipWith(fn, lst1, lst2)` from operators.py: Python's `zip` truncates to
the shorter list, as `List.zipWith` does. -/
def zipWith (fn : ℝ → ℝ → ℝ) (lst1 lst2 : List ℝ) : List ℝ :=
  List.zipWith fn lst1 lst2

/-- `reduce(fn, lst, start)` from operators.py: strict left fold. -/
def reduce (fn : ℝ → ℝ → ℝ) (lst : List ℝ) (start : ℝ) : ℝ :=
  lst.foldl fn start

/-- `negList(lst) = map(neg, lst)` from operators.py. -/
def negList (lst : List ℝ) : List ℝ := map neg lst

/-- `addLists(lst1, lst2) = zipWith(add, lst1, lst2)` from operators.py. -/
def addLists (lst1 lst2 : List ℝ) : List ℝ := zipWith add lst1 lst2

/-- `sumList(lst) = reduce(add, lst, 0.0)` from operators.py. -/
def sumList (lst : List ℝ) : ℝ := reduce add lst 0

/-- `prodList(lst) = reduce(mul, lst, 1.0)` from operators.py. -/
def prodList (lst : List ℝ) : ℝ := reduce mul lst 1

/-- `Parameter` from module.py: a container holding a value (of an arbitrary
type `α`) and an optional name. -/
structure Parameter (α : Type) where
  value : α
  name : Option String
deriving DecidableEq, Repr

mutual

/-- `Module` from module.py: `_parameters` (name-keyed, insertion-ordered),
`_modules` (name-keyed, insertion-ordered child modules), and `training`. -/
inductive Module (α : Type) : Type where
  | mk : List (String × Parameter α) → Mods α → Bool → Module α

/-- The insertion-ordered `_modules` dict of a `Module`: a list of
(attachment name, child module) pairs. -/
inductive Mods (α : Type) : Type where
  | nil : Mods α
  | cons : String → Module α → Mods α → Mods α

end

/-- The `_parameters` dict of a module. -/
def Module.paramsOf {α : Type} : Module α → List (String × Parameter α)
  | .mk ps _ _ => ps

/-- The `_modules` dict of a module. -/
def Module.modsOf {α : Type} : Module α → Mods α
  | .mk _ ms _ => ms

/-- The `training` flag of a module. -/
def Module.trainingOf {α : Type} : Module α → Bool
  | .mk _ _ t => t

/-- The attachment names of the `_modules` dict, in order. -/
def Mods.keys {α : Type} : Mods α → List String
  | .nil => []
  | .cons n _ rest => n :: rest.keys

/-- Dict membership lookup on `_modules` (`key in self._modules` /
`self._modules[key]`). -/
def Mods.find {α : Type} : Mods α → String → Option (Module α)
  | .nil, _ => none
  | .cons n m rest, key => if n = key then some m else rest.find key

mutual

/-- `Module.named_parameters` (module.py lines 45–57): own parameters first in
insertion order, then each child's results with the child's attachment name
prepended and joined by ".". -/
def Module.named_parameters {α : Type} : Module α → List (String × Parameter α)
  | .mk ps ms _ => ps ++ ms.namedParams

/-- The inner loop of `named_parameters` over the `_modules` dict. -/
def Mods.namedParams {α : Type} : Mods α → List (String × Parameter α)
  | .nil => []
  | .cons n m rest =>
      (m.named_parameters.map fun q => (n ++ "." ++ q.1, q.2)) ++ rest.namedParams

end

mutual

/-- `Module.parameters` (module.py lines 59–66): own parameter values, then
each child's parameters, as the produced sequence of the generator. -/
def Module.parameters {α : Type} : Module α → List (Parameter α)
  | .mk ps ms _ => ps.map Prod.snd ++ ms.parametersAcc

/-- The inner loop of `parameters` over the `_modules` dict. -/
def Mods.parametersAcc {α : Type} : Mods α → List (Parameter α)
  | .nil => []
  | .cons _ m rest => m.parameters ++ rest.parametersAcc

end

mutual

/-- `Module.train` (module.py lines 31–36): set `training` to `True` on this
node, then recurse into every child module. -/
def Module.train {α : Type} : Module α → Module α
  | .mk ps ms _ => .mk ps ms.trainAll true

/-- The recursion of `train` over the `_modules` dict. -/
def Mods.trainAll {α : Type} : Mods α → Mods α
  | .nil => .nil
  | .cons n m rest => .cons n m.train rest.trainAll

end

mutual

/-- `Module.eval` (module.py lines 38–43): set `training` to `False` on this
node, then recurse into every child module. -/
def Module.eval {α : Type} : Module α → Module α
  | .mk ps ms _ => .mk ps ms.evalAll false

/-- The recursion of `eval` over the `_modules` dict. -/
def Mods.evalAll {α : Type} : Mods α → Mods α
  | .nil => .nil
  | .cons n m rest => .cons n m.eval rest.evalAll

end

mutual

/-- Whether every node in the tree has `training` equal to `b`. -/
def Module.allFlag {α : Type} (b : Bool) : Module α → Bool
  | .mk _ ms t => (t == b) && ms.allFlag b

/-- `allFlag` over the `_modules` dict. -/
def Mods.allFlag {α : Type} (b : Bool) : Mods α → Bool
  | .nil => true
  | .cons _ m rest => m.allFlag b && rest.allFlag b

end

mutual

/-- Tree skeleton: a module tree with the `training` flags erased, keeping
parameter dicts (keys, order and values) and child attachment structure. -/
inductive Skel (α : Type) : Type where
  | mk : List (String × Parameter α) → SkelMods α → Skel α

/-- Skeletons of the `_modules` dict. -/
inductive SkelMods (α : Type) : Type where
  | nil : SkelMods α
  | cons : String → Skel α → SkelMods α → SkelMods α

end

mutual

/-- Erase every `training` flag of a module tree. -/
def Module.skel {α : Type} : Module α → Skel α
  | .mk ps ms _ => .mk ps ms.skelAll

/-- Erase the flags of every module in a `_modules` dict. -/
def Mods.skelAll {α : Type} : Mods α → SkelMods α
  | .nil => .nil
  | .cons n m rest => .cons n m.skel rest.skelAll

end

/-- Result of `Module.__getattr__` (module.py lines 93–100): a parameter, a
child module, or `None` (absent) — never an exception. -/
inductive Attr (α : Type) : Type where
  | param : Parameter α → Attr α
  | module : Module α → Attr α
  | absent : Attr α

/-- `Module.__getattr__` (module.py lines 93–100): check `_parameters` first,
then `_modules`, and return `None` (here `.absent`) when in neither. -/
def Module.getattr {α : Type} : Module α → String → Attr α
  | .mk ps ms _, key =>
    match ps.lookup key with
    | some p => .param p
    | none =>
      match ms.find key with
      | some m => .module m
      | none => .absent

/-- A string that does not contain the "." qualification delimiter. -/
def dotFree (s : String) : Bool := decide ('.' ∉ s.data)

/-- A key list is good when every key is dot-free and the keys are pairwise
distinct (the latter is automatic for a Python dict). -/
def goodKeys (l : List String) : Bool := l.all dotFree && decide l.Nodup

mutual

/-- Well-formedness of a module tree for name qualification: at every node,
both dicts have dot-free keys (distinctness within a dict being the Python
dict invariant). -/
def Module.wf {α : Type} : Module α → Bool
  | .mk ps ms _ => goodKeys (ps.map Prod.fst) && goodKeys ms.keys && ms.wfAll

/-- `wf` for every module of a `_modules` dict. -/
def Mods.wfAll {α : Type} : Mods α → Bool
  | .nil => true
  | .cons _ m rest => m.wf && rest.wfAll

end

/-- The root parameter "b" of the spec's worked example. -/
def pB : Parameter Int := ⟨1, some "b"⟩

/-- The parameter "w" of the child module "lin" in the spec's worked example. -/
def pW : Parameter Int := ⟨2, some "w"⟩

/-- The spec's worked example: root `R` with own parameter "b" and child
"lin" holding parameter "w". -/
def exampleRoot : Module Int :=
  .mk [("b", pB)] (.cons "lin" (.mk [("w", pW)] .nil true) .nil) true

/-- A tree whose per-dict keys are distinct yet whose qualified names
collide: root parameter "a.b" and child "a" holding parameter "b". -/
def collidingRoot : Module Int :=
  .mk [("a.b", ⟨1, none⟩)] (.cons "a" (.mk [("b", ⟨2, none⟩)] .nil true) .nil) true

/-- A module used to exercise attribute lookup: parameter "x" and child "sub". -/
def lookupRoot : Module Int :=
  .mk [("x", ⟨5, some "x"⟩)] (.cons "sub" (.mk [] .nil true) .nil) true

end Minitorch

namespace Minitorch

/-- The two sigmoid branches agree with the plain logistic function. -/
theorem sigmoid_eq_logistic (x : ℝ) : sigmoid x = 1 / (1 + Real.exp (-x)) := by
  unfold sigmoid
  split_ifs with h
  · rfl
  · have hx : Real.exp x ≠ 0 := (Real.exp_pos x).ne'
    have h1 : (1 : ℝ) + Real.exp x ≠ 0 := by positivity
    have h2 : (1 : ℝ) + Real.exp (-x) ≠ 0 := by positivity
    rw [Real.exp_neg] at h2 ⊢
    field_simp
    ring

/-- The denominators in `sigmoid` are never zero, so `sigmoidE` never fails. -/
theorem sigmoidE_eq_some (x : ℝ) : sigmoidE x = some (sigmoid x) := by
  unfold sigmoidE sigmoid pydiv
  have h1 : (1 : ℝ) + Real.exp (-x) ≠ 0 := by positivity
  have h2 : (1 : ℝ) + Real.exp x ≠ 0 := by positivity
  split_ifs with h <;> simp_all

mutual

/-- The generator `parameters` yields exactly the second components of
`named_parameters`, in the same order. -/
theorem Module.parameters_eq_named {α : Type} : ∀ (m : Module α),
    m.parameters = m.named_parameters.map Prod.snd
  | .mk ps ms _ => by
    simp [Module.parameters, Module.named_parameters, Mods.parametersAcc_eq_named ms]

/-- The dict-level form of `Module.parameters_eq_named`. -/
theorem Mods.parametersAcc_eq_named {α : Type} : ∀ (ms : Mods α),
    ms.parametersAcc = ms.namedParams.map Prod.snd
  | .nil => rfl
  | .cons n m rest => by
    simp [Mods.parametersAcc, Mods.namedParams, Module.parameters_eq_named m,
      Mods.parametersAcc_eq_named rest, List.map_map, Function.comp]

end

mutual

/-- After `train`, every node of the tree has `training = true`. -/
theorem Module.train_allFlag {α : Type} : ∀ (m : Module α),
    (m.train).allFlag true = true
  | .mk ps ms t => by
    simp [Module.train, Module.allFlag, Mods.trainAll_allFlag ms]

/-- The dict-level form of `Module.train_allFlag`. -/
theorem Mods.trainAll_allFlag {α : Type} : ∀ (ms : Mods α),
    (ms.trainAll).allFlag true = true
  | .nil => rfl
  | .cons n m rest => by
    simp [Mods.trainAll, Mods.allFlag, Module.train_allFlag m,
      Mods.trainAll_allFlag rest]

end

mutual

/-- After `eval`, every node of the tree has `training = false`. -/
theorem Module.eval_allFlag {α : Type} : ∀ (m : Module α),
    (m.eval).allFlag false = true
  | .mk ps ms t => by
    simp [Module.eval, Module.allFlag, Mods.evalAll_allFlag ms]

/-- The dict-level form of `Module.eval_allFlag`. -/
theorem Mods.evalAll_allFlag {α : Type} : ∀ (ms : Mods α),
    (ms.evalAll).allFlag false = true
  | .nil => rfl
  | .cons n m rest => by
    simp [Mods.evalAll, Mods.allFlag, Module.eval_allFlag m,
      Mods.evalAll_allFlag rest]

end

mutual

/-- `train` is idempotent on module trees. -/
theorem Module.train_train {α : Type} : ∀ (m : Module α), m.train.train = m.train
  | .mk ps ms t => by
    simp [Module.train, Mods.trainAll_trainAll ms]

/-- The dict-level form of `Module.train_train`. -/
theorem Mods.trainAll_trainAll {α : Type} : ∀ (ms : Mods α),
    ms.trainAll.trainAll = ms.trainAll
  | .nil => rfl
  | .cons n m rest => by
    simp [Mods.trainAll, Module.train_train m, Mods.trainAll_trainAll rest]

end

mutual

/-- `eval` is idempotent on module trees. -/
theorem Module.eval_eval {α : Type} : ∀ (m : Module α), m.eval.eval = m.eval
  | .mk ps ms t => by
    simp [Module.eval, Mods.evalAll_evalAll ms]

/-- The dict-level form of `Module.eval_eval`. -/
theorem Mods.evalAll_evalAll {α : Type} : ∀ (ms : Mods α),
    ms.evalAll.evalAll = ms.evalAll
  | .nil => rfl
  | .cons n m rest => by
    simp [Mods.evalAll, Module.eval_eval m, Mods.evalAll_evalAll rest]

end

mutual

/-- `train` preserves the flag-erased skeleton of the tree. -/
theorem Module.skel_train {α : Type} : ∀ (m : Module α), (m.train).skel = m.skel
  | .mk ps ms t => by
    simp [Module.train, Module.skel, Mods.skelAll_trainAll ms]

/-- The dict-level form of `Module.skel_train`. -/
theorem Mods.skelAll_trainAll {α : Type} : ∀ (ms : Mods α),
    (ms.trainAll).skelAll = ms.skelAll
  | .nil => rfl
  | .cons n m rest => by
    simp [Mods.trainAll, Mods.skelAll, Module.skel_train m,
      Mods.skelAll_trainAll rest]

end

mutual

/-- `eval` preserves the flag-erased skeleton of the tree. -/
theorem Module.skel_eval {α : Type} : ∀ (m : Module α), (m.eval).skel = m.skel
  | .mk ps ms t => by
    simp [Module.eval, Module.skel, Mods.skelAll_evalAll ms]

/-- The dict-level form of `Module.skel_eval`. -/
theorem Mods.skelAll_evalAll {α : Type} : ∀ (ms : Mods α),
    (ms.evalAll).skelAll = ms.skelAll
  | .nil => rfl
  | .cons n m rest => by
    simp [Mods.evalAll, Mods.skelAll, Module.skel_eval m,
      Mods.skelAll_evalAll rest]

end

/-- Unfolding of `dotFree`. -/
theorem dotFree_iff {s : String} : dotFree s = true ↔ '.' ∉ s.data := by
  simp [dotFree]

/-- The character data of a "."-qualified name. -/
theorem data_qualified (a x : String) :
    (a ++ "." ++ x).data = a.data ++ '.' :: x.data := by
  simp [String.data_append]

/-- Splitting at the first dot: two dot-free segments followed by "." and an
arbitrary remainder determine each other. -/
theorem dot_split {a b x y : List Char} (ha : '.' ∉ a) (hb : '.' ∉ b)
    (h : a ++ '.' :: x = b ++ '.' :: y) : a = b ∧ x = y := by
  induction a generalizing b with
  | nil =>
    cases b with
    | nil => simp_all
    | cons c bs =>
      rw [List.nil_append, List.cons_append] at h
      injection h with h1 h2
      subst h1
      exact absurd (List.mem_cons_self _ _) hb
  | cons c as ih =>
    cases b with
    | nil =>
      rw [List.cons_append, List.nil_append] at h
      injection h with h1 h2
      subst h1
      exact absurd (List.mem_cons_self _ _) ha
    | cons c' bs =>
      rw [List.cons_append, List.cons_append] at h
      injection h with h1 h2
      subst h1
      have ha' : '.' ∉ as := fun hm => ha (List.mem_cons_of_mem _ hm)
      have hb' : '.' ∉ bs := fun hm => hb (List.mem_cons_of_mem _ hm)
      obtain ⟨h3, h4⟩ := ih ha' hb' h2
      exact ⟨by rw [h3], h4⟩

/-- Qualified names with dot-free heads are equal only componentwise. -/
theorem qualified_eq {n k x y : String} (hn : dotFree n = true)
    (hk : dotFree k = true) (h : n ++ "." ++ x = k ++ "." ++ y) :
    n = k ∧ x = y := by
  have hd := congrArg String.data h
  rw [data_qualified, data_qualified] at hd
  obtain ⟨h1, h2⟩ := dot_split (dotFree_iff.mp hn) (dotFree_iff.mp hk) hd
  exact ⟨String.ext h1, String.ext h2⟩

/-- Prepending an attachment name is injective. -/
theorem qualify_inj (n : String) : Function.Injective (fun s => n ++ "." ++ s) := by
  intro x y h
  have hd := congrArg String.data h
  simp only [data_qualified] at hd
  have h3 := List.append_cancel_left hd
  injection h3 with _ h4
  exact String.ext h4

/-- A "."-qualified name is never dot-free. -/
theorem qualified_not_dotFree (k r : String) : dotFree (k ++ "." ++ r) = false := by
  simp [dotFree, data_qualified]

/-- Every qualified name produced for the child dict is some child key
followed by "." and a remainder. -/
theorem Mods.namedParams_shape {α : Type} : ∀ (ms : Mods α) (s : String),
    s ∈ ms.namedParams.map Prod.fst → ∃ k r, k ∈ ms.keys ∧ s = k ++ "." ++ r
  | .nil, s, h => by simp [Mods.namedParams] at h
  | .cons n m rest, s, h => by
    simp only [Mods.namedParams, List.map_append, List.mem_append] at h
    rcases h with h | h
    · simp only [List.map_map, List.mem_map, Function.comp] at h
      obtain ⟨q, hq, hs⟩ := h
      exact ⟨n, q.1, List.mem_cons_self _ _, hs.symm⟩
    · obtain ⟨k, r, hk, hs⟩ := Mods.namedParams_shape rest s h
      exact ⟨k, r, List.mem_cons_of_mem _ hk, hs⟩

/-- Unfolding of `goodKeys`. -/
theorem goodKeys_iff {l : List String} :
    goodKeys l = true ↔ (∀ s ∈ l, dotFree s = true) ∧ l.Nodup := by
  simp [goodKeys, List.all_eq_true]

mutual

/-- In a well-formed tree the qualified names are pairwise distinct. -/
theorem Module.wf_nodup_names {α : Type} : ∀ (m : Module α), m.wf = true →
    (m.named_parameters.map Prod.fst).Nodup
  | .mk ps ms t, h => by
    simp only [Module.wf, Bool.and_eq_true] at h
    obtain ⟨⟨hps, hms⟩, hall⟩ := h
    rw [goodKeys_iff] at hps
    simp only [Module.named_parameters, List.map_append]
    refine hps.2.append (Mods.wfAll_nodup_names ms hall hms) ?_
    intro a ha hb
    obtain ⟨k, r, hk, rfl⟩ := Mods.namedParams_shape ms a hb
    have h1 := hps.1 _ ha
    rw [qualified_not_dotFree] at h1
    exact Bool.false_ne_true h1

/-- The dict-level form of `Module.wf_nodup_names`: under well-formedness of
every child and good keys for the dict itself, the produced names are
pairwise distinct. -/
theorem Mods.wfAll_nodup_names {α : Type} : ∀ (ms : Mods α), ms.wfAll = true →
    goodKeys ms.keys = true → (ms.namedParams.map Prod.fst).Nodup
  | .nil, _, _ => by simp [Mods.namedParams]
  | .cons n m rest, hall, hkeys => by
    simp only [Mods.wfAll, Bool.and_eq_true] at hall
    rw [goodKeys_iff] at hkeys
    simp only [Mods.keys] at hkeys
    have hn : dotFree n = true := hkeys.1 _ (List.mem_cons_self _ _)
    have hrest : ∀ s ∈ rest.keys, dotFree s = true :=
      fun s hs => hkeys.1 _ (List.mem_cons_of_mem _ hs)
    have hnodup := hkeys.2
    rw [List.nodup_cons] at hnodup
    simp only [Mods.namedParams, List.map_append]
    refine List.Nodup.append ?_
      (Mods.wfAll_nodup_names rest hall.2 (goodKeys_iff.mpr ⟨hrest, hnodup.2⟩)) ?_
    · have h1 := Module.wf_nodup_names m hall.1
      have : (List.map Prod.fst (m.named_parameters.map
          fun q => (n ++ "." ++ q.1, q.2))) =
          (m.named_parameters.map Prod.fst).map fun s => n ++ "." ++ s := by
        simp [List.map_map, Function.comp]
      rw [this]
      exact h1.map (qualify_inj n)
    · intro a ha hb
      obtain ⟨k, r, hk, rfl⟩ := Mods.namedParams_shape rest a hb
      simp only [List.map_map, List.mem_map, Function.comp] at ha
      obtain ⟨q, hq, hs⟩ := ha
      obtain ⟨h5, -⟩ := qualified_eq hn (hrest _ hk) hs
      exact hnodup.1 (h5 ▸ hk)

end

end Minitorch

/-- Claim C3: for all reals `x`, `y`, `max(x, y)` returns `y` when `y > x` and
returns `x` otherwise; when `x = y` the value is the first argument `x`. -/
theorem claim_C3_max_tie_break (x y : ℝ) :
    (y > x → Minitorch.max x y = y) ∧
    (¬ y > x → Minitorch.max x y = x) ∧
    (x = y → Minitorch.max x y = x) := by
  unfold Minitorch.max
  split_ifs with h
  · exact ⟨fun hy => absurd h (not_lt.mpr hy.le), fun _ => rfl, fun hxy => rfl⟩
  · exact ⟨fun _ => rfl, fun hy => le_antisymm (not_lt.mp hy) (not_lt.mp h),
      fun hxy => hxy.symm⟩

/-- Claim C3, instantiated: `max 2 3 = 3` for the strict case and
`max 5 5 = 5` for the tie. -/
theorem claim_C3_max_tie_break_check :
    ((3 : ℝ) > 2 ∧ Minitorch.max 2 3 = 3) ∧
    ((5 : ℝ) = 5 ∧ Minitorch.max 5 5 = 5) :=
  ⟨⟨by norm_num, (claim_C3_max_tie_break 2 3).1 (by norm_num)⟩,
   ⟨rfl, (claim_C3_max_tie_break 5 5).2.2 rfl⟩⟩

/-- Claim C1 (counterexample): `log_back`, claimed total, fails at `x = 0`:
`log_back(0, 1)` is `1 / 0`, a `ZeroDivisionError`. -/
theorem claim_C1_log_back_fails_at_zero : Minitorch.log_back 0 1 = none := by
  simp [Minitorch.log_back, Minitorch.pydiv]

/-- Claim C1 (amended): the fallible operators are exactly `log`, `inv`,
`inv_back` and `log_back`: `log` fails precisely for `x ≤ 0`, and the other
three fail precisely at `x = 0`; `sigmoid`'s divisions never fail, and the
remaining operators are total real-valued functions. -/
theorem claim_C1_failure_modes :
    (∀ x : ℝ, Minitorch.log x = none ↔ x ≤ 0) ∧
    (∀ x : ℝ, Minitorch.inv x = none ↔ x = 0) ∧
    (∀ x d : ℝ, Minitorch.inv_back x d = none ↔ x = 0) ∧
    (∀ x d : ℝ, Minitorch.log_back x d = none ↔ x = 0) ∧
    (∀ x : ℝ, Minitorch.sigmoidE x = some (Minitorch.sigmoid x)) := by
  refine ⟨fun x => ?_, fun x => ?_, fun x d => ?_, fun x d => ?_,
    Minitorch.sigmoidE_eq_some⟩
  · unfold Minitorch.log
    split_ifs with h <;> simp [h]
  · unfold Minitorch.inv Minitorch.pydiv
    split_ifs with h <;> simp [h]
  · unfold Minitorch.inv_back Minitorch.pydiv
    split_ifs with h <;> simp_all [pow_eq_zero_iff]
  · unfold Minitorch.log_back Minitorch.pydiv
    split_ifs with h <;> simp [h]

/-- Claim C9: the hand-written accumulator loop `prod` and the reduce-based
`prodList` agree on every list. -/
theorem claim_C9_prod_eq_prodList (lst : List ℝ) :
    Minitorch.prod lst = Minitorch.prodList lst := rfl

/-- Claim C7: `sigmoid` is the two-branch stable logistic function, maps into
`[0, 1]`, satisfies `sigmoid (-x) = 1 - sigmoid x` and `sigmoid 0 = 1/2`, and
is strictly monotonically increasing. -/
theorem claim_C7_sigmoid_properties :
    (∀ x : ℝ, Minitorch.sigmoid x =
      if x ≥ 0 then 1 / (1 + Real.exp (-x)) else Real.exp x / (1 + Real.exp x)) ∧
    (∀ x : ℝ, 0 ≤ Minitorch.sigmoid x ∧ Minitorch.sigmoid x ≤ 1) ∧
    (∀ x : ℝ, Minitorch.sigmoid (-x) = 1 - Minitorch.sigmoid x) ∧
    (Minitorch.sigmoid 0 = 1 / 2) ∧
    StrictMono Minitorch.sigmoid := by
  have hpos : ∀ x : ℝ, (0 : ℝ) < 1 + Real.exp (-x) := fun x => by positivity
  refine ⟨fun x => rfl, fun x => ?_, fun x => ?_, ?_, ?_⟩
  · rw [Minitorch.sigmoid_eq_logistic]
    constructor
    · positivity
    · rw [div_le_one (hpos x)]
      nlinarith [Real.exp_pos (-x)]
  · rw [Minitorch.sigmoid_eq_logistic, Minitorch.sigmoid_eq_logistic, neg_neg]
    have h1 : (1 : ℝ) + Real.exp x ≠ 0 := by positivity
    have h2 : (1 : ℝ) + Real.exp (-x) ≠ 0 := (hpos x).ne'
    rw [Real.exp_neg] at h2 ⊢
    have hx : Real.exp x ≠ 0 := (Real.exp_pos x).ne'
    field_simp
    ring
  · rw [Minitorch.sigmoid_eq_logistic]
    norm_num [Real.exp_zero]
  · intro x y hxy
    rw [Minitorch.sigmoid_eq_logistic, Minitorch.sigmoid_eq_logistic]
    have h : 1 + Real.exp (-y) < 1 + Real.exp (-x) := by
      have := Real.exp_lt_exp.mpr (neg_lt_neg hxy)
      linarith
    exact one_div_lt_one_div_of_lt (hpos y) h

/-- Claim C2 (counterexample): qualified names need not be distinct — with
root parameter "a.b" and child "a" holding parameter "b", both qualified
names are "a.b", even though each dict's own keys are distinct. -/
theorem claim_C2_names_collide :
    ¬ (Minitorch.collidingRoot.named_parameters.map Prod.fst).Nodup := by
  decide

/-- Claim C2 (amended): provided every node's parameter keys and child
attachment keys are pairwise distinct and none of them contains the "."
delimiter, the qualified names produced by `named_parameters` are pairwise
distinct. -/
theorem claim_C2_unique_qualified_names {α : Type} (m : Minitorch.Module α)
    (h : m.wf = true) : (m.named_parameters.map Prod.fst).Nodup :=
  Minitorch.Module.wf_nodup_names m h

/-- Claim C2 (amended), instantiated on the spec's worked example. -/
theorem claim_C2_unique_qualified_names_check :
    Minitorch.exampleRoot.wf = true ∧
    (Minitorch.exampleRoot.named_parameters.map Prod.fst).Nodup :=
  ⟨by decide, claim_C2_unique_qualified_names Minitorch.exampleRoot (by decide)⟩

/-- Claim C4: `named_parameters` lists this node's own parameters first in
insertion order, then each child's results (children in insertion order) with
the child's attachment name prepended and joined by "."; on the spec's worked
example it returns `[("b", _), ("lin.w", _)]` in that order. -/
theorem claim_C4_named_parameters_order :
    (∀ (α : Type) (ps : List (String × Minitorch.Parameter α))
      (ms : Minitorch.Mods α) (t : Bool),
      (Minitorch.Module.mk ps ms t).named_parameters = ps ++ ms.namedParams) ∧
    (∀ (α : Type) (n : String) (m : Minitorch.Module α) (rest : Minitorch.Mods α),
      (Minitorch.Mods.cons n m rest).namedParams =
        m.named_parameters.map (fun q => (n ++ "." ++ q.1, q.2)) ++ rest.namedParams) ∧
    Minitorch.exampleRoot.named_parameters =
      [("b", Minitorch.pB), ("lin.w", Minitorch.pW)] :=
  ⟨fun _ _ _ _ => rfl, fun _ _ _ _ => rfl, rfl⟩

/-- Claim C5: `parameters` produces exactly the Parameter values of
`named_parameters`, element by element, in the same depth-first pre-order. -/
theorem claim_C5_parameters_match_named {α : Type} (m : Minitorch.Module α) :
    m.parameters = m.named_parameters.map Prod.snd :=
  Minitorch.Module.parameters_eq_named m

/-- Claim C6: `train` sets `training` to true on the node and every
descendant, `eval` sets it to false on the node and every descendant, and
both are idempotent. -/
theorem claim_C6_train_eval {α : Type} (m : Minitorch.Module α) :
    (m.train).allFlag true = true ∧ (m.eval).allFlag false = true ∧
    m.train.train = m.train ∧ m.eval.eval = m.eval :=
  ⟨Minitorch.Module.train_allFlag m, Minitorch.Module.eval_allFlag m,
   Minitorch.Module.train_train m, Minitorch.Module.eval_eval m⟩

/-- Claim C10: `train` and `eval` change only the `training` flags — the
flag-erased skeleton (parameter dicts with their keys, order and values, and
the named child structure) is unchanged. -/
theorem claim_C10_train_eval_frame {α : Type} (m : Minitorch.Module α) :
    (m.train).skel = m.skel ∧ (m.eval).skel = m.skel :=
  ⟨Minitorch.Module.skel_train m, Minitorch.Module.skel_eval m⟩

/-- Claim C8: attribute reading checks the parameter dict first, then the
child-module dict, and yields the absent value (never an error) when the name
is in neither. -/
theorem claim_C8_getattr_precedence {α : Type} (m : Minitorch.Module α)
    (key : String) :
    (∀ p, m.paramsOf.lookup key = some p → m.getattr key = .param p) ∧
    (m.paramsOf.lookup key = none →
      ∀ c, m.modsOf.find key = some c → m.getattr key = .module c) ∧
    (m.paramsOf.lookup key = none → m.modsOf.find key = none →
      m.getattr key = .absent) := by
  obtain ⟨ps, ms, t⟩ := m
  simp only [Minitorch.Module.getattr, Minitorch.Module.paramsOf,
    Minitorch.Module.modsOf]
  refine ⟨fun p hp => ?_, fun hn c hc => ?_, fun hn hc => ?_⟩
  · rw [hp]
  · rw [hn, hc]
  · rw [hn, hc]

/-- Claim C8, instantiated on a concrete module: a stored parameter, a stored
child, and an unknown name resolving to the absent value. -/
theorem claim_C8_getattr_precedence_check :
    (Minitorch.lookupRoot.paramsOf.lookup "x" = some ⟨5, some "x"⟩ ∧
      Minitorch.lookupRoot.getattr "x" = .param ⟨5, some "x"⟩) ∧
    (Minitorch.lookupRoot.paramsOf.lookup "sub" = none ∧
      Minitorch.lookupRoot.modsOf.find "sub" =
        some (Minitorch.Module.mk [] Minitorch.Mods.nil true) ∧
      Minitorch.lookupRoot.getattr "sub" =
        .module (Minitorch.Module.mk [] Minitorch.Mods.nil true)) ∧
    (Minitorch.lookupRoot.paramsOf.lookup "y" = none ∧
      Minitorch.lookupRoot.modsOf.find "y" = none ∧
      Minitorch.lookupRoot.getattr "y" = .absent) :=
  ⟨⟨rfl, (claim_C8_getattr_precedence Minitorch.lookupRoot "x").1 _ rfl⟩,
   ⟨rfl, rfl,
    (claim_C8_getattr_precedence Minitorch.lookupRoot "sub").2.1 rfl _ rfl⟩,
   ⟨rfl, rfl,
    (claim_C8_getattr_precedence Minitorch.lookupRoot "y").2.2 rfl rfl⟩⟩
